import Mathlib

/-!
# A shallow embedding of `djangoseo/base.py`

This file embeds the value-resolution, caching, metaclass-validation and
signal-callback logic of `djangoseo/base.py` in Lean 4, and proves the
specification claims about it.

Conventions:
* Python string/None truthiness is modelled over `Option String`
  (`none` ≈ `None`, `some ""` ≈ the falsy empty string).
* The Django cache is a pure map `String → Option String`; `cache.set`
  returns the updated map.
* Database tables are lists of rows; saving a row rewrites the row with
  the same row id.
* External library functions used by the code (`hashlib.md5(...).hexdigest`,
  `iri_to_uri`, a field's `clean`/`render`) are abstract function parameters.
-/

set_option autoImplicit false

namespace DjangoSeo

/-- Python truthiness of an optional string (`None` and `""` are falsy). -/
def truthy : Option String → Bool
  | none => false
  | some s => s ≠ ""

/-- Python `value or None` for an optional string. -/
def orNone : Option String → Option String
  | none => none
  | some s => if s = "" then none else some s

/-- Python `value or ''` for an optional string. -/
def orEmpty : Option String → String
  | none => ""
  | some s => s

/-- The `populate_from` attribute of a metadata element, as dispatched on by
`FormattedMetadata._resolve_value`: a callable, a `Literal`, the `NotSet`
sentinel, or any other value (used as a field name to resolve recursively). -/
inductive PopulateFrom where
  | notSet : PopulateFrom
  | literal (value : Option String) : PopulateFrom
  | callable (f : Option String → Option String) : PopulateFrom
  | fieldName (n : String) : PopulateFrom

/-- A metadata element (a `MetadataField` registered on the options).
`clean` and `render` are the field's framework-side hooks, abstract here. -/
structure Element where
  populate_from : PopulateFrom
  clean : String → String
  render : String → String
  head : Bool

/-- The `_meta` options of a metadata class: its registered elements (an
ordered name-keyed dict), groups, and the boolean options used by
`FormattedMetadata`. -/
structure MetaOptions where
  elements : List (String × Element)
  groups : List (String × List String)
  use_cache : Bool
  use_sites : Bool
  use_i18n : Bool
  use_subdomains : Bool

/-- Dictionary lookup `self.__metadata._meta.elements[name]` (as `Option`). -/
def MetaOptions.elementsFind (m : MetaOptions) (name : String) : Option Element :=
  (m.elements.find? (fun p => p.1 == name)).map (fun p => p.2)

/-- Dictionary lookup in `self.__metadata._meta.groups` (as `Option`). -/
def MetaOptions.groupsFind (m : MetaOptions) (name : String) : Option (List String) :=
  (m.groups.find? (fun p => p.1 == name)).map (fun p => p.2)

/-- A backend-provided metadata instance, reduced to what
`FormattedMetadata` uses: its own `_resolve_value` method. -/
structure MDInstance where
  resolve_value : String → Option String

/-- The `for instance in self.__instances(): if value: return value` loop of
`FormattedMetadata._resolve_value`: the first truthy value wins. -/
def firstInstanceValue (insts : List MDInstance) (name : String) : Option String :=
  match insts with
  | [] => none
  | i :: rest =>
    let value := i.resolve_value name
    if truthy value then value else firstInstanceValue rest name

/-- Embedding of `FormattedMetadata._resolve_value`.  The recursive `populate_from`
fallback (`self._resolve_value(populate_from)`) is fuelled: Python would
recurse (and on a cyclic chain not terminate); fuel `0` models the
exhausted stack, and every theorem works at positive fuel. -/
def resolve_value (md : MetaOptions) (insts : List MDInstance) :
    Nat → String → Option String
  | 0, _ => none
  | fuel + 1, name =>
    match firstInstanceValue insts name with
    | some v => some v
    | none =>
      match md.elementsFind name with
      | some e =>
        match e.populate_from with
        | .callable f => f none
        | .literal v => v
        | .notSet => none
        | .fieldName n => resolve_value md insts fuel n
      | none => none

/-! ## The `__instances` generator cache (C9)

`FormattedMetadata.__init__` stores the backend generator in
`__instances_original` and an empty list in `__instances_cache`;
`__instances()` yields the cache first, then drains the generator,
appending each drained item to the cache before yielding it. -/

/-- The mutable iteration state of a `FormattedMetadata`:
`cache` is `__instances_cache`, `orig` the unconsumed remainder of
`__instances_original`. -/
structure InstanceStream (α : Type) where
  cache : List α
  orig : List α

/-- The state set up by `FormattedMetadata.__init__`. -/
def initStream {α : Type} (instances : List α) : InstanceStream α :=
  { cache := [], orig := instances }

/-- The full sequence a fresh call of `__instances()` yields. -/
def InstanceStream.items {α : Type} (s : InstanceStream α) : List α :=
  s.cache ++ s.orig

/-- State left after a consumer takes `k` items from `__instances()` and
stops: items beyond the cache are drained from the generator into the
cache. -/
def InstanceStream.consume {α : Type} (s : InstanceStream α) (k : Nat) :
    InstanceStream α :=
  { cache := s.cache ++ s.orig.take (k - s.cache.length),
    orig := s.orig.drop (k - s.cache.length) }

/-- The items one `consume` draws from the underlying generator. -/
def InstanceStream.drawn {α : Type} (s : InstanceStream α) (k : Nat) : List α :=
  s.orig.take (k - s.cache.length)

/-- State after a whole sequence of partial iterations. -/
def consumeAll {α : Type} (s : InstanceStream α) : List Nat → InstanceStream α
  | [] => s
  | k :: ks => consumeAll (s.consume k) ks

/-- Everything a sequence of partial iterations draws from the generator,
in order. -/
def drawnAll {α : Type} (s : InstanceStream α) : List Nat → List α
  | [] => []
  | k :: ks => s.drawn k ++ drawnAll (s.consume k) ks

/-! ## Cache-key construction in `FormattedMetadata.__init__` (C3) -/

/-- A `django.contrib.sites` `Site`, reduced to its domain. -/
structure SiteT where
  domain : String

/-- Outcome of computing `self.__cache_prefix` in `__init__`. -/
inductive PrefixResult where
  | noCache : PrefixResult
  | key (p : String) : PrefixResult
  | typeError : PrefixResult
deriving DecidableEq

/-- Python `'.'.join` of a list of strings. -/
def joinDot : List String → String
  | [] => ""
  | [s] => s
  | s :: rest => s ++ "." ++ joinDot rest

/-- Python `'.'.join(bits)` over bits that may be `None`: joining a `None`
raises `TypeError` (modelled as `none`). -/
def joinBits (bits : List (Option String)) : Option String :=
  if bits.all (fun b => b.isSome) then some (joinDot (bits.filterMap id))
  else none

/-- The `prefix_bits` list assembled by `FormattedMetadata.__init__`:
`['djangoseo', class name, hexpath]`, then the language exactly when
`use_i18n`, then the subdomain exactly when `use_subdomains` and the
subdomain is not `None`. -/
def prefixBits (md5hex iriToUri : String → String) (meta : MetaOptions)
    (className path : String) (site : Option SiteT)
    (language subdomain : Option String) : List (Option String) :=
  let hexpath :=
    if meta.use_sites then
      match site with
      | some st => md5hex (iriToUri (st.domain ++ path))
      | none => md5hex (iriToUri path)
    else md5hex (iriToUri path)
  [some "djangoseo", some className, some hexpath]
    ++ (if meta.use_i18n then [language] else [])
    ++ (if meta.use_subdomains ∧ subdomain ≠ none then [subdomain] else [])

/-- The string the site part contributes to the hash input: the domain of
a passed site, else nothing. -/
def siteDomainOf : Option SiteT → String
  | some st => st.domain
  | none => ""

/-- The subdomain component of the cache key, as a (possibly empty) list
of bits. -/
def subBits (useSub : Bool) : Option String → List String
  | some s => if useSub then [s] else []
  | none => []

/-- The `self.__cache_prefix` value as computed by `FormattedMetadata.__init__`
(`noCache` when `use_cache` is off). -/
def cachePrefixOf (md5hex iriToUri : String → String) (meta : MetaOptions)
    (className path : String) (site : Option SiteT)
    (language subdomain : Option String) : PrefixResult :=
  if meta.use_cache then
    match joinBits (prefixBits md5hex iriToUri meta className path site language subdomain) with
    | some p => .key p
    | none => .typeError
  else .noCache

/-! ## `BoundMetadataField` and `FormattedMetadata.__getattr__` (C2) -/

/-- A `BoundMetadataField`: `value` is `field.clean(value)` when the given
value is truthy, else `None`. -/
structure BoundMetadataField where
  field : Element
  value : Option String

/-- The `BoundMetadataField.__init__` constructor logic. -/
def mkBound (field : Element) (value : Option String) : BoundMetadataField :=
  { field := field,
    value :=
      match value with
      | some s => if s = "" then none else some (field.clean s)
      | none => none }

/-- Embedding of `BoundMetadataField.make_safe` / `__str__`: render the value, or `''`. -/
def BoundMetadataField.make_safe (b : BoundMetadataField) : String :=
  match b.value with
  | some v => b.field.render v
  | none => ""

/-- The Django cache, as a pure key-value map. -/
def CacheMap : Type := String → Option String

/-- Embedding of `cache.get`. -/
def CacheMap.get (c : CacheMap) (k : String) : Option String := c k

/-- Embedding of `cache.set`. -/
def CacheMap.set (c : CacheMap) (k v : String) : CacheMap :=
  fun k' => if k' = k then some v else c k'

/-- A `FormattedMetadata` object after `__init__`: the metadata options,
the (already listed) instances, and the computed `__cache_prefix`
(`none` when caching is disabled). -/
structure FormattedMetadata where
  meta : MetaOptions
  instances : List MDInstance
  cachePrefixOpt : Option String

/-- What `FormattedMetadata.__getattr__` returns: a joined group string
(or `None`), a `BoundMetadataField` for an element, an `AttributeError`,
or a `KeyError` (a group member that is not a registered element). -/
inductive GetattrResult where
  | groupValue (v : Option String) : GetattrResult
  | fieldValue (b : BoundMetadataField) : GetattrResult
  | attributeError : GetattrResult
  | keyError : GetattrResult

/-- The `'\n'.join(...)` body of the group branch: render each member
field with its resolved value; `none` models the `KeyError` raised when a
member is not in `elements`. -/
def groupJoined (fm : FormattedMetadata) (fuel : Nat)
    (members : List String) : Option String :=
  if members.all (fun f => (fm.meta.elementsFind f).isSome) then
    some ((String.intercalate "\n" (members.filterMap (fun f =>
      (fm.meta.elementsFind f).map (fun e =>
        (mkBound e (resolve_value fm.meta fm.instances fuel f)).make_safe)))).trim)
  else none

/-- Embedding of `FormattedMetadata.__getattr__`, returning the result together with
the (possibly updated) cache. -/
def getattrFM (fm : FormattedMetadata) (c : CacheMap) (fuel : Nat)
    (name : String) : GetattrResult × CacheMap :=
  let cacheKey : Option String :=
    if truthy fm.cachePrefixOpt then
      fm.cachePrefixOpt.map (fun p => p ++ "." ++ name)
    else none
  let cached : Option String :=
    match cacheKey with
    | some k => c.get k
    | none => none
  match fm.meta.groupsFind name with
  | some members =>
    match cached with
    | some v => (.groupValue (orNone (some v)), c)
    | none =>
      match groupJoined fm fuel members with
      | none => (.keyError, c)
      | some v =>
        let c' := match cacheKey with
          | some k => c.set k v
          | none => c
        (.groupValue (orNone (some v)), c')
  | none =>
    match fm.meta.elementsFind name with
    | some e =>
      match cached with
      | some v => (.fieldValue (mkBound e (orNone (some v))), c)
      | none =>
        let v := resolve_value fm.meta fm.instances fuel name
        let c' := match cacheKey with
          | some k => c.set k (orEmpty v)
          | none => c
        (.fieldValue (mkBound e v), c')
    | none => (.attributeError, c)

/-! ## `MetadataBase.__new__` (C8)

An attribute dict entry is a name together with `some counter` when the
attribute is a `MetadataField` (with that `creation_counter`), `none`
otherwise.  `RESERVED_FIELD_NAMES` and the keys of `backend_registry`
(defined in `djangoseo.backends`, outside the provided sources) are
passed in as parameters. -/

/-- Errors `MetadataBase.__new__` can raise: the three `assert`s, and the
`Exception` for a backend name missing from `backend_registry`. -/
inductive NewClassError where
  | groupClash (g : String) : NewClassError
  | badGroupMember (m : String) : NewClassError
  | reservedName (k : String) : NewClassError
  | backendMissing (b : String) : NewClassError
deriving DecidableEq

/-- Whether a `NewClassError` is one of the `assert` failures (as opposed
to the backend-installation `Exception`). -/
def NewClassError.isAssertion : NewClassError → Bool
  | .groupClash _ => true
  | .badGroupMember _ => true
  | .reservedName _ => true
  | .backendMissing _ => false

/-- The group-validation loop: each group name must not clash with an
element name, and each group member must be a registered element. -/
def checkGroups (elementNames : List String) :
    List (String × List String) → Option NewClassError
  | [] => none
  | (g, members) :: rest =>
    if elementNames.contains g then some (.groupClash g)
    else
      match members.find? (fun m => ¬ elementNames.contains m) with
      | some m => some (.badGroupMember m)
      | none => checkGroups elementNames rest

/-- The reserved-name loop over the element names. -/
def checkReserved (reserved : List String) :
    List String → Option NewClassError
  | [] => none
  | k :: rest =>
    if reserved.contains k then some (.reservedName k)
    else checkReserved reserved rest

/-- The backend loop: a name missing from `backend_registry` raises. -/
def checkBackends (registryKeys : List String) :
    List String → Option NewClassError
  | [] => none
  | b :: rest =>
    if registryKeys.contains b then checkBackends registryKeys rest
    else some (.backendMissing b)

/-- The `MetadataField` attributes of the class dict, in declaration
order, as `(name, creation_counter)` pairs. -/
def fieldAttrs (attrs : List (String × Option Nat)) : List (String × Nat) :=
  attrs.filterMap (fun a => a.2.map (fun cnt => (a.1, cnt)))

/-- The `elements.sort(key=lambda x: x[1].creation_counter)` comparator. -/
def counterLe (x y : String × Nat) : Bool := x.2 ≤ y.2

/-- Embedding of `MetadataBase.__new__`: collect the `MetadataField` attributes, sort
them by `creation_counter`, run the validation asserts in source order,
then check the backends; on success return the registered element list. -/
def metadata_base_new (groups : List (String × List String))
    (backends : List String) (registryKeys reserved : List String)
    (attrs : List (String × Option Nat)) :
    Except NewClassError (List (String × Nat)) :=
  let elements := (fieldAttrs attrs).mergeSort counterLe
  let elementNames := elements.map (fun p => p.1)
  match checkGroups elementNames groups with
  | some e => .error e
  | none =>
    match checkReserved reserved elementNames with
    | some e => .error e
    | none =>
      match checkBackends registryKeys backends with
      | some e => .error e
      | none => .ok elements

/-! ## Metadata rows and tracked instances (C5, C6, C7) -/

/-- The object a metadata row's generic foreign key points at, reduced to
its `get_absolute_url`. -/
structure ContentObj where
  url : String
deriving DecidableEq

/-- A `modelinstance` metadata row: `_content_type`, `_object_id`,
`_path`, and the generic `_content_object` (`none` when dangling). -/
structure MDRow where
  rid : Nat
  ct : Nat
  oid : Option Nat
  path : String
  contentObj : Option ContentObj
deriving DecidableEq

/-- A tracked model instance, as the callbacks see it: the handled flag,
content type, primary key, and `get_absolute_url` (`none` models the
`AttributeError` of an object that defines no path). -/
structure TrackedInstance where
  handled : Bool
  ct : Nat
  pk : Option Nat
  url : Option String

/-- Modelled from the spec: the backend manager lookup
`metadata_class.objects.get_instances(path, ...)` (defined in
`djangoseo.backends`, not part of the provided sources) returns the
metadata rows stored at exactly the given path. -/
def get_instances (db : List MDRow) (path : String) : List MDRow :=
  db.filter (fun r => r.path == path)

/-- Embedding of `md.save()`: rewrite the row carrying the same row id. -/
def saveRow (db : List MDRow) (r : MDRow) : List MDRow :=
  db.map (fun x => if x.rid == r.rid then r else x)

/-- Outcome of the path loop in `create_metadata_instance`: the early
`return` taken when a foreign row's content object is dangling, or normal
completion with the updated table and the row found for this instance. -/
inductive LoopResult where
  | earlyReturn (db : List MDRow) : LoopResult
  | done (db : List MDRow) (found : Option MDRow) : LoopResult

/-- The `for md in metadata_class.objects.get_instances(path, ...)` loop:
a row for another object has its `_path` re-pointed to that object's own
URL (or triggers the early `return` when the object is gone); a row for
this instance is remembered in `metadata`. -/
def pathLoop (inst : TrackedInstance) (db : List MDRow) :
    List MDRow → Option MDRow → LoopResult
  | [], found => .done db found
  | md :: rest, found =>
    if md.ct ≠ inst.ct ∨ md.oid ≠ inst.pk then
      match md.contentObj with
      | none => .earlyReturn db
      | some obj => pathLoop inst (saveRow db { md with path := obj.url }) rest found
    else pathLoop inst db rest (some md)

/-- A fresh row id for a row created by `get_or_create`. -/
def freshRid (db : List MDRow) : Nat :=
  (db.map (fun r => r.rid)).foldr max 0 + 1

/-- Outcome of `create_metadata_instance`: a normal return with the
resulting table, or the uncaught `MultipleObjectsReturned` that
`get_or_create` raises when several rows already carry the instance's
content type and object id (the table holds the saves made before the
raise). -/
inductive CreateResult where
  | done (db : List MDRow) : CreateResult
  | multipleObjectsRaised (db : List MDRow) : CreateResult
deriving DecidableEq

/-- The table state an outcome leaves behind. -/
def CreateResult.table : CreateResult → List MDRow
  | .done db => db
  | .multipleObjectsRaised db => db

/-- Embedding of `create_metadata_instance`: skip handled instances and instances
without `get_absolute_url`; walk the rows at the instance's path; when no
row was found for this instance, `get_or_create` one by content type and
object id — no matching row creates one, a unique match is reused, and
several matches raise `MultipleObjectsReturned` (which the function does
not catch) — and point its `_path` at the instance's URL. -/
def create_metadata_instance (db : List MDRow) (inst : TrackedInstance) :
    CreateResult :=
  if inst.handled then .done db
  else
    match inst.url with
    | none => .done db
    | some path =>
      match pathLoop inst db (get_instances db path) none with
      | .earlyReturn db' => .done db'
      | .done db' found =>
        match found with
        | some _ => .done db'
        | none =>
          match db'.filter (fun r => r.ct == inst.ct && r.oid == inst.pk) with
          | [] =>
            .done (db' ++ [{ rid := freshRid db', ct := inst.ct, oid := inst.pk,
                             path := path, contentObj := some { url := path } }])
          | [r] => .done (saveRow db' { r with path := path })
          | _ :: _ :: _ => .multipleObjectsRaised db'

/-- Embedding of `_update_callback` (post-save): just `create_metadata_instance`. -/
def update_callback (db : List MDRow) (inst : TrackedInstance) : CreateResult :=
  create_metadata_instance db inst

/-- Embedding of `_delete_callback` (pre-delete) over a database of named metadata
tables: filter the tracked model's rows out of `model_class`'s table
only. -/
def delete_callback (tables : List (String × List MDRow))
    (modelClass : String) (inst : TrackedInstance) :
    List (String × List MDRow) :=
  tables.map (fun t =>
    if t.1 == modelClass then
      (t.1, t.2.filter (fun r => ¬ (r.ct == inst.ct && r.oid == inst.pk)))
    else t)

/-! ## `get_linked_metadata` (C7) -/

/-- Failures of a Django `objects.get` call. -/
inductive GetErr where
  | doesNotExist : GetErr
  | multipleObjectsReturned : GetErr
deriving DecidableEq

/-- Django `Model.objects.get`: exactly one matching row, or an error. -/
def djangoGet {α : Type} (l : List α) (p : α → Bool) : Except GetErr α :=
  match l.filter p with
  | [] => .error .doesNotExist
  | [a] => .ok a
  | _ :: _ :: _ => .error .multipleObjectsReturned

/-- A `model` metadata row (keyed by content type only). -/
structure ModelMDRow where
  ct : Nat
deriving DecidableEq

/-- A member of the instance list `get_linked_metadata` assembles: a
fetched row, or a fresh unsaved fallback object bound to the target. -/
inductive LinkedMD where
  | instanceRow (r : MDRow) : LinkedMD
  | freshInstanceRow (ct : Nat) (oid : Option Nat) : LinkedMD
  | modelRow (r : ModelMDRow) : LinkedMD
  | freshModelRow (ct : Nat) : LinkedMD
deriving DecidableEq

/-- The `FormattedMetadata(Metadata, instances, '', ...)` value
`get_linked_metadata` returns, reduced to its instance list and path. -/
structure LinkedFormattedMetadata where
  instances : List LinkedMD
  path : String
deriving DecidableEq

/-- The instance-level lookup of `get_linked_metadata`: only
`DoesNotExist` is caught and replaced by a fresh unsaved
`InstanceMetadata(_content_object=obj)`; other lookup errors propagate. -/
def instLookup (instRows : Option (List MDRow)) (ct : Nat)
    (pk : Option Nat) : Except GetErr (List LinkedMD) :=
  match instRows with
  | none => .ok []
  | some rows =>
    match djangoGet rows (fun r => r.ct == ct && r.oid == pk) with
    | .ok r => .ok [LinkedMD.instanceRow r]
    | .error .doesNotExist => .ok [LinkedMD.freshInstanceRow ct pk]
    | .error e => .error e

/-- The model-level lookup of `get_linked_metadata`: only `DoesNotExist`
is caught and replaced by a fresh unsaved
`ModelMetadata(_content_type=content_type)`. -/
def modelLookup (modelRows : Option (List ModelMDRow)) (ct : Nat) :
    Except GetErr (List LinkedMD) :=
  match modelRows with
  | none => .ok []
  | some rows =>
    match djangoGet rows (fun r => r.ct == ct) with
    | .ok r => .ok [LinkedMD.modelRow r]
    | .error .doesNotExist => .ok [LinkedMD.freshModelRow ct]
    | .error e => .error e

/-- Embedding of `get_linked_metadata`: look up the instance-level and model-level
rows for the object; a `DoesNotExist` is caught and replaced by a fresh
unsaved object; a table passed as `none` models the backend's model not
being installed (`get_model` returning `None`). -/
def get_linked_metadata (instRows : Option (List MDRow))
    (modelRows : Option (List ModelMDRow)) (ct : Nat) (pk : Option Nat) :
    Except GetErr LinkedFormattedMetadata :=
  match instLookup instRows ct pk with
  | .error e => .error e
  | .ok iPart =>
    match modelLookup modelRows ct with
    | .error e => .error e
    | .ok mPart => .ok { instances := iPart ++ mPart, path := "" }

/-! ## `_handle_redirects_callback` (C4, C10) -/

/-- A stored row of the tracked model, as `sender.objects` sees it:
its id and its `get_absolute_url` (which may raise). -/
structure StoredObj where
  id : Nat
  getUrl : Except String String

/-- A `djangoseo` `Redirect` row. -/
structure Redirect where
  old_path : String
  new_path : String
  site : String
  all_subdomains : Bool
deriving DecidableEq

/-- Embedding of `Redirect.objects.get_or_create` with all four fields as lookup. -/
def redirectGetOrCreate (redirects : List Redirect) (r : Redirect) :
    List Redirect :=
  if redirects.contains r then redirects else redirects ++ [r]

/-- Python truthiness of `instance.pk` (`None` and `0` are falsy). -/
def pkTruthy : Option Nat → Bool
  | none => false
  | some n => n ≠ 0

/-- A tracked instance as `_handle_redirects_callback` sees it: primary
key and a `get_absolute_url` that may raise. -/
structure RedirectInstance where
  pk : Option Nat
  getUrl : Except String String

/-- The `try` body of `_handle_redirects_callback`: compute the new URL,
fetch the stored object (`.first()` returning `None` makes the
`.get_absolute_url()` call raise), compute the old URL, and create the
redirect when they differ. -/
def redirectsBody (db : List StoredObj) (redirects : List Redirect)
    (currentSite : String) (inst : RedirectInstance) (pk : Nat) :
    Except String (List Redirect) :=
  match inst.getUrl with
  | .error e => .error e
  | .ok after =>
    match (db.filter (fun o => o.id == pk)).head? with
    | none => .error "AttributeError"
    | some stored =>
      match stored.getUrl with
      | .error e => .error e
      | .ok before =>
        if before ≠ after then
          .ok (redirectGetOrCreate redirects
            { old_path := before, new_path := after,
              site := currentSite, all_subdomains := true })
        else .ok redirects

/-- Embedding of `_handle_redirects_callback`: return unchanged for an unsaved
instance; otherwise run the body, and on any exception log it (the
boolean) and leave the redirects unchanged. -/
def handle_redirects_callback (db : List StoredObj)
    (redirects : List Redirect) (currentSite : String)
    (inst : RedirectInstance) : List Redirect × Bool :=
  match inst.pk with
  | none => (redirects, false)
  | some n =>
    if n = 0 then (redirects, false)
    else
      match redirectsBody db redirects currentSite inst n with
      | .ok r => (r, false)
      | .error _ => (redirects, true)

/-! ## Sample values used by concrete evaluations -/

/-- A sample element whose `populate_from` is a `Literal`. -/
def elemT : Element :=
  { populate_from := .literal (some "T"), clean := id, render := id, head := true }

/-- Sample metadata options with a single element named `title`. -/
def metaT : MetaOptions :=
  { elements := [("title", elemT)], groups := [], use_cache := true,
    use_sites := false, use_i18n := false, use_subdomains := false }

/-- A sample instance that resolves nothing. -/
def instNone : MDInstance := ⟨fun _ => none⟩

/-- A sample instance that resolves `title`. -/
def instHello : MDInstance :=
  ⟨fun n => if n = "title" then some "Hello" else none⟩

/-- Sample metadata options with i18n and subdomain support switched on. -/
def metaIS : MetaOptions :=
  { elements := [], groups := [], use_cache := true,
    use_sites := false, use_i18n := true, use_subdomains := true }

/-! # Theorems -/

/-! ## C9: the `__instances` generator cache -/

theorem consumeAll_items_drawn {α : Type} (ks : List Nat) (s : InstanceStream α) :
    (consumeAll s ks).items = s.items
  ∧ drawnAll s ks ++ (consumeAll s ks).orig = s.orig := by
  induction ks generalizing s with
  | nil => simp [consumeAll, drawnAll]
  | cons k ks ih =>
    obtain ⟨h1, h2⟩ := ih (s.consume k)
    constructor
    · rw [consumeAll, h1]
      simp [InstanceStream.items, InstanceStream.consume]
    · rw [drawnAll, consumeAll, List.append_assoc, h2]
      simp [InstanceStream.drawn, InstanceStream.consume]

/-- C9: for every `FormattedMetadata` object, every (partial) iteration of
`__instances()` sees the same instances in the same order — after any
sequence of iterations the yielded sequence is still the original instance
list — and each underlying generator item is drawn at most once over the
object's lifetime: the items drawn across all iterations, in order,
followed by the still-unconsumed remainder, are exactly the original
generator contents. -/
theorem instances_iteration_stable {α : Type} (instances : List α)
    (ks : List Nat) :
    (consumeAll (initStream instances) ks).items = instances
  ∧ drawnAll (initStream instances) ks
      ++ (consumeAll (initStream instances) ks).orig = instances := by
  have h := consumeAll_items_drawn ks (initStream instances)
  simpa [initStream, InstanceStream.items] using h

/-! ## C1: `FormattedMetadata._resolve_value` -/

theorem firstInstanceValue_eq_find (insts : List MDInstance) (name : String)
    (i : MDInstance)
    (h : insts.find? (fun j => truthy (j.resolve_value name)) = some i) :
    firstInstanceValue insts name = i.resolve_value name := by
  induction insts with
  | nil => simp at h
  | cons j rest ih =>
    rw [List.find?_cons] at h
    by_cases hj : truthy (j.resolve_value name)
    · simp [hj] at h
      subst h
      simp [firstInstanceValue, hj]
    · simp [hj] at h
      simp [firstInstanceValue, hj, ih h]

theorem firstInstanceValue_of_all_empty (insts : List MDInstance)
    (name : String)
    (h : ∀ i ∈ insts, truthy (i.resolve_value name) = false) :
    firstInstanceValue insts name = none := by
  induction insts with
  | nil => rfl
  | cons j rest ih =>
    have hj := h j (by simp)
    simp [firstInstanceValue, hj]
    exact ih (fun i hi => h i (by simp [hi]))

/-- C1: `_resolve_value` returns the value of the first instance (in
backend order) whose own `_resolve_value` is non-empty; only when every
instance yields an empty value does it fall back to the element's
`populate_from` — a callable is called with `None`, a `Literal` yields its
stored value, any other set value is resolved recursively as a field
name — and it yields `None` when the name is not an element or no
fallback applies. -/
theorem resolve_value_first_nonempty (md : MetaOptions)
    (insts : List MDInstance) (fuel : Nat) (name : String) :
    (∀ i, insts.find? (fun j => truthy (j.resolve_value name)) = some i →
        resolve_value md insts (fuel + 1) name = i.resolve_value name)
  ∧ ((∀ i ∈ insts, truthy (i.resolve_value name) = false) →
      (∀ e, md.elementsFind name = some e →
          (∀ f, e.populate_from = .callable f →
              resolve_value md insts (fuel + 1) name = f none)
        ∧ (∀ v, e.populate_from = .literal v →
              resolve_value md insts (fuel + 1) name = v)
        ∧ (∀ n, e.populate_from = .fieldName n →
              resolve_value md insts (fuel + 1) name =
                resolve_value md insts fuel n)
        ∧ (e.populate_from = .notSet →
              resolve_value md insts (fuel + 1) name = none))
      ∧ (md.elementsFind name = none →
            resolve_value md insts (fuel + 1) name = none)) := by
  constructor
  · intro i hfind
    have hfirst := firstInstanceValue_eq_find insts name i hfind
    have htruthy : truthy (i.resolve_value name) = true := by
      simpa using List.find?_some hfind
    match hv : i.resolve_value name with
    | none => rw [hv] at htruthy; simp [truthy] at htruthy
    | some s =>
      rw [hv] at hfirst
      simp [resolve_value, hfirst]
  · intro hall
    have hfirst := firstInstanceValue_of_all_empty insts name hall
    constructor
    · intro e he
      refine ⟨?_, ?_, ?_, ?_⟩
      · intro f hf; simp [resolve_value, hfirst, he, hf]
      · intro v hv; simp [resolve_value, hfirst, he, hv]
      · intro n hn; simp [resolve_value, hfirst, he, hn]
      · intro hns; simp [resolve_value, hfirst, he, hns]
    · intro hnone; simp [resolve_value, hfirst, hnone]

/-- Concrete run of C1: with one instance that yields nothing, the
`Literal` fallback of the `title` element is returned. -/
theorem resolve_value_first_nonempty_witness :
    resolve_value metaT [instNone] 1 "title" = some "T" := by
  have h := (resolve_value_first_nonempty metaT [instNone] 0 "title").2
  have hall : ∀ i ∈ [instNone], truthy (i.resolve_value "title") = false := by
    intro i hi
    simp at hi
    subst hi
    rfl
  have he : metaT.elementsFind "title" = some elemT := rfl
  exact ((h hall).1 elemT he).2.1 (some "T") rfl

/-! ## C2: read-through caching in `__getattr__` -/

/-- C2: with caching enabled, element access is read-through — a cache hit
is returned as a `BoundMetadataField` (empty string meaning no value),
without touching the cache and independently of the instances; a miss is
resolved from the instances, written back with `''` for an empty result,
and returned. -/
theorem getattr_read_through (fm : FormattedMetadata) (c : CacheMap)
    (fuel : Nat) (name : String) (p : String) (e : Element)
    (hp : fm.cachePrefixOpt = some p) (hpne : p ≠ "")
    (hgroup : fm.meta.groupsFind name = none)
    (helem : fm.meta.elementsFind name = some e) :
    (∀ v, c.get (p ++ "." ++ name) = some v →
        getattrFM fm c fuel name =
          (.fieldValue (mkBound e (orNone (some v))), c))
  ∧ (∀ v insts', c.get (p ++ "." ++ name) = some v →
        getattrFM { fm with instances := insts' } c fuel name =
          getattrFM fm c fuel name)
  ∧ (c.get (p ++ "." ++ name) = none →
        getattrFM fm c fuel name =
          (.fieldValue (mkBound e (resolve_value fm.meta fm.instances fuel name)),
           c.set (p ++ "." ++ name)
             (orEmpty (resolve_value fm.meta fm.instances fuel name)))) := by
  have hkey : (if truthy fm.cachePrefixOpt then
      fm.cachePrefixOpt.map (fun q => q ++ "." ++ name) else none) =
      some (p ++ "." ++ name) := by
    simp [hp, truthy, hpne]
  refine ⟨?_, ?_, ?_⟩
  · intro v hv
    simp [getattrFM, hkey, hgroup, helem, hv]
  · intro v insts' hv
    simp [getattrFM, hkey, hgroup, helem, hv]
  · intro hv
    simp [getattrFM, hkey, hgroup, helem, hv]

/-- Concrete run of C2: a cache miss resolves `title` from the instance
and writes the result through to the cache. -/
theorem getattr_read_through_witness :
    getattrFM { meta := metaT, instances := [instHello],
                cachePrefixOpt := some "pfx" } (fun _ => none) 1 "title" =
      (.fieldValue (mkBound elemT
          (resolve_value metaT [instHello] 1 "title")),
       CacheMap.set (fun _ => none) ("pfx" ++ "." ++ "title")
         (orEmpty (resolve_value metaT [instHello] 1 "title"))) :=
  (getattr_read_through
    { meta := metaT, instances := [instHello], cachePrefixOpt := some "pfx" }
    (fun _ => none) 1 "title" "pfx" elemT rfl (by decide) rfl rfl).2.2 rfl

/-! ## C3: the cache key built by `FormattedMetadata.__init__` -/

theorem str_append_right_cancel {a b c : String} (h : a ++ c = b ++ c) :
    a = b := by
  have h2 := congrArg String.data h
  simp [String.data_append] at h2
  exact String.ext h2

theorem str_append_left_cancel {a b c : String} (h : c ++ a = c ++ b) :
    a = b := by
  have h2 := congrArg String.data h
  simp [String.data_append] at h2
  exact String.ext h2

theorem joinDot_cons_cancel (rest : List String) (x y : String)
    (h : joinDot (x :: rest) = joinDot (y :: rest)) : x = y := by
  cases rest with
  | nil => simpa [joinDot] using h
  | cons a as =>
    have h' : (x ++ ".") ++ joinDot (a :: as) = (y ++ ".") ++ joinDot (a :: as) := by
      simpa [joinDot, String.append_assoc] using h
    have h2 := str_append_right_cancel h'
    exact str_append_right_cancel h2

theorem joinDot_head_cancel (x : String) (r1 r2 : List String)
    (h : joinDot (x :: r1) = joinDot (x :: r2)) :
    joinDot r1 = joinDot r2 ∧ (r1 = [] ↔ r2 = []) := by
  cases r1 with
  | nil =>
    cases r2 with
    | nil => exact ⟨rfl, Iff.rfl⟩
    | cons b bs =>
      exfalso
      have h' : x = (x ++ ".") ++ joinDot (b :: bs) := by
        simpa [joinDot, String.append_assoc] using h
      have hl := congrArg String.length h'
      simp [String.length_append] at hl
      have hone : ".".length = 1 := rfl
      omega
  | cons a as =>
    cases r2 with
    | nil =>
      exfalso
      have h' : (x ++ ".") ++ joinDot (a :: as) = x := by
        simpa [joinDot, String.append_assoc] using h
      have hl := congrArg String.length h'
      simp [String.length_append] at hl
      have hone : ".".length = 1 := rfl
      omega
    | cons b bs =>
      have h' : (x ++ ".") ++ joinDot (a :: as) = (x ++ ".") ++ joinDot (b :: bs) := by
        simpa [joinDot, String.append_assoc] using h
      exact ⟨str_append_left_cancel h', by simp⟩

/-- The cache key computed by `__init__`, in closed form: the claim's
join of `djangoseo`, the class name, the digest of the (possibly
domain-prefixed) path, then the language exactly under `use_i18n` and the
subdomain exactly under `use_subdomains` when it is not `None`. -/
theorem cachePrefixOf_eq (md5hex iriToUri : String → String)
    (meta : MetaOptions) (className path : String) (site : Option SiteT)
    (language subdomain : Option String) (l : String)
    (hc : meta.use_cache = true)
    (hl : meta.use_i18n = true → language = some l) :
    cachePrefixOf md5hex iriToUri meta className path site language subdomain =
      .key (joinDot (["djangoseo", className,
          md5hex (iriToUri
            ((if meta.use_sites then siteDomainOf site else "") ++ path))]
        ++ (if meta.use_i18n then [l] else [])
        ++ subBits meta.use_subdomains subdomain)) := by
  unfold cachePrefixOf prefixBits joinBits
  rcases site with _ | st <;> rcases subdomain with _ | sub <;>
    by_cases hs : meta.use_sites <;> by_cases hi : meta.use_i18n <;>
    by_cases hsd : meta.use_subdomains <;>
    simp_all [joinDot, siteDomainOf, subBits]

theorem joinDot_fixed3_tail_cancel (a b c : String) (t1 t2 : List String)
    (h : joinDot (a :: b :: c :: t1) = joinDot (a :: b :: c :: t2)) :
    joinDot t1 = joinDot t2 ∧ (t1 = [] ↔ t2 = []) := by
  have h1 := (joinDot_head_cancel _ _ _ h).1
  have h2 := (joinDot_head_cancel _ _ _ h1).1
  exact joinDot_head_cancel _ _ _ h2

/-- C3 (amended): the cache prefix is `djangoseo`, the class name, and the
digest of the (domain-prefixed exactly under `use_sites` with a site) path,
with the language appended exactly under `use_i18n` and the subdomain
appended exactly under `use_subdomains` when not `None`; two lookups that
differ only in language, or only in subdomain, never share a cache key,
and two lookups that differ in site domain never share a cache key
provided the digests of their hash inputs differ. -/
theorem cache_prefix_structure_and_distinctness
    (md5hex iriToUri : String → String) (meta : MetaOptions)
    (className path : String) (hc : meta.use_cache = true) :
    (∀ site language subdomain l, (meta.use_i18n = true → language = some l) →
      cachePrefixOf md5hex iriToUri meta className path site language subdomain =
        .key (joinDot (["djangoseo", className,
            md5hex (iriToUri
              ((if meta.use_sites then siteDomainOf site else "") ++ path))]
          ++ (if meta.use_i18n then [l] else [])
          ++ subBits meta.use_subdomains subdomain)))
  ∧ (∀ site subdomain l1 l2, meta.use_i18n = true → l1 ≠ l2 →
      cachePrefixOf md5hex iriToUri meta className path site (some l1) subdomain ≠
        cachePrefixOf md5hex iriToUri meta className path site (some l2) subdomain)
  ∧ (∀ site language l sub1 sub2, meta.use_subdomains = true →
      (meta.use_i18n = true → language = some l) → sub1 ≠ sub2 →
      cachePrefixOf md5hex iriToUri meta className path site language sub1 ≠
        cachePrefixOf md5hex iriToUri meta className path site language sub2)
  ∧ (∀ st1 st2 language subdomain l, meta.use_sites = true →
      (meta.use_i18n = true → language = some l) →
      md5hex (iriToUri (st1.domain ++ path)) ≠
        md5hex (iriToUri (st2.domain ++ path)) →
      cachePrefixOf md5hex iriToUri meta className path (some st1) language subdomain ≠
        cachePrefixOf md5hex iriToUri meta className path (some st2) language subdomain) := by
  refine ⟨?_, ?_, ?_, ?_⟩
  · intro site language subdomain l hl
    exact cachePrefixOf_eq md5hex iriToUri meta className path site language
      subdomain l hc hl
  · intro site subdomain l1 l2 hi hne heq
    rw [cachePrefixOf_eq md5hex iriToUri meta className path site (some l1)
          subdomain l1 hc (fun _ => rfl),
        cachePrefixOf_eq md5hex iriToUri meta className path site (some l2)
          subdomain l2 hc (fun _ => rfl)] at heq
    simp only [PrefixResult.key.injEq, hi, if_true, List.cons_append,
      List.nil_append] at heq
    have h3 := joinDot_fixed3_tail_cancel _ _ _ _ _ heq
    exact hne (joinDot_cons_cancel _ _ _ h3.1)
  · intro site language l sub1 sub2 hsd hl hne heq
    rw [cachePrefixOf_eq md5hex iriToUri meta className path site language
          sub1 l hc hl,
        cachePrefixOf_eq md5hex iriToUri meta className path site language
          sub2 l hc hl] at heq
    simp only [PrefixResult.key.injEq] at heq
    have hkey : joinDot (subBits meta.use_subdomains sub1) =
        joinDot (subBits meta.use_subdomains sub2)
      ∧ (subBits meta.use_subdomains sub1 = []
        ↔ subBits meta.use_subdomains sub2 = []) := by
      by_cases hi : meta.use_i18n
      · simp only [hi, if_true, List.cons_append, List.nil_append] at heq
        have h3 := joinDot_fixed3_tail_cancel _ _ _ _ _ heq
        exact joinDot_head_cancel _ _ _ h3.1
      · simp only [hi, if_false, Bool.false_eq_true, List.cons_append,
          List.nil_append] at heq
        exact joinDot_fixed3_tail_cancel _ _ _ _ _ heq
    rcases sub1 with _ | s1 <;> rcases sub2 with _ | s2
    · exact hne rfl
    · have := hkey.2
      simp [subBits, hsd] at this
    · have := hkey.2
      simp [subBits, hsd] at this
    · have h1 : joinDot [s1] = joinDot [s2] := by
        have := hkey.1
        simpa [subBits, hsd] using this
      have := joinDot_cons_cancel [] s1 s2 h1
      exact hne (by rw [this])
  · intro st1 st2 language subdomain l hsites hl hdig heq
    rw [cachePrefixOf_eq md5hex iriToUri meta className path (some st1)
          language subdomain l hc hl,
        cachePrefixOf_eq md5hex iriToUri meta className path (some st2)
          language subdomain l hc hl] at heq
    simp only [PrefixResult.key.injEq, hsites, if_true, List.cons_append,
      List.nil_append] at heq
    have h1 := (joinDot_head_cancel _ _ _ heq).1
    have h2 := (joinDot_head_cancel _ _ _ h1).1
    exact hdig (joinDot_cons_cancel _ _ _ h2)

/-- C3 counterexample: with i18n and subdomains both enabled, the lookup
with language `"en.x"` and no subdomain and the lookup with language
`"en"` and subdomain `"x"` differ in language (and in subdomain) yet
produce exactly the same cache key, refuting the unqualified
never-share-a-key claim. -/
theorem cache_prefix_collision_counterexample :
    ("en.x" : String) ≠ "en"
  ∧ (none : Option String) ≠ some "x"
  ∧ cachePrefixOf id id metaIS "M" "/p" none (some "en.x") none =
      cachePrefixOf id id metaIS "M" "/p" none (some "en") (some "x") := by
  refine ⟨by decide, by decide, by decide⟩

/-- Concrete run of C3: under i18n, languages `"en"` and `"fr"` (same
subdomain) give different cache keys. -/
theorem cache_prefix_structure_witness :
    cachePrefixOf id id metaIS "M" "/p" none (some "en") none ≠
      cachePrefixOf id id metaIS "M" "/p" none (some "fr") none :=
  ((cache_prefix_structure_and_distinctness id id metaIS "M" "/p" rfl).2.1)
    none none "en" "fr" rfl (by decide)

/-! ## C8: `MetadataBase.__new__` -/

theorem checkGroups_eq_none_iff (names : List String)
    (groups : List (String × List String)) :
    checkGroups names groups = none ↔
      ∀ p ∈ groups, p.1 ∉ names ∧ ∀ m ∈ p.2, m ∈ names := by
  induction groups with
  | nil => simp [checkGroups]
  | cons g rest ih =>
    obtain ⟨gname, members⟩ := g
    by_cases hg : names.contains gname
    · simp only [checkGroups, hg, if_true]
      constructor
      · intro h; cases h
      · intro h
        exfalso
        have := (h (gname, members) (by simp)).1
        simp at hg
        exact this hg
    · cases hf : members.find? (fun m => ¬ names.contains m) with
      | some m =>
        simp only [checkGroups, hg, if_false, hf, Bool.false_eq_true]
        constructor
        · intro h; cases h
        · intro h
          exfalso
          have hm := List.find?_some hf
          have hmem := List.mem_of_find?_eq_some hf
          have := (h (gname, members) (by simp)).2 m hmem
          simp at hm
          exact hm this
      | none =>
        have hmem : ∀ m ∈ members, m ∈ names := by
          intro m hm
          have := List.find?_eq_none.mp hf m hm
          simpa using this
        simp only [checkGroups, hg, if_false, hf, Bool.false_eq_true]
        rw [ih]
        constructor
        · intro h
          intro p hp
          rcases List.mem_cons.mp hp with hp | hp
          · subst hp
            refine ⟨by simpa using hg, hmem⟩
          · exact h p hp
        · intro h p hp
          exact h p (by simp [hp])

theorem checkGroups_some_assertion (names : List String)
    (groups : List (String × List String)) (e : NewClassError)
    (h : checkGroups names groups = some e) : e.isAssertion = true := by
  induction groups with
  | nil => simp [checkGroups] at h
  | cons g rest ih =>
    obtain ⟨gname, members⟩ := g
    by_cases hg : names.contains gname
    · simp only [checkGroups, hg, if_true, Option.some.injEq] at h
      subst h; rfl
    · cases hf : members.find? (fun m => ¬ names.contains m) with
      | some m =>
        simp only [checkGroups, hg, hf, if_false, Bool.false_eq_true,
          Option.some.injEq] at h
        subst h; rfl
      | none =>
        simp only [checkGroups, hg, hf, if_false, Bool.false_eq_true] at h
        exact ih h

theorem checkReserved_eq_none_iff (reserved names : List String) :
    checkReserved reserved names = none ↔ ∀ k ∈ names, k ∉ reserved := by
  induction names with
  | nil => simp [checkReserved]
  | cons k rest ih =>
    by_cases hk : reserved.contains k
    · simp only [checkReserved, hk, if_true]
      constructor
      · intro h; cases h
      · intro h
        exfalso
        exact (h k (by simp)) (by simpa using hk)
    · simp only [checkReserved, hk, if_false, Bool.false_eq_true]
      rw [ih]
      constructor
      · intro h x hx
        rcases List.mem_cons.mp hx with hx | hx
        · subst hx; simpa using hk
        · exact h x hx
      · intro h x hx
        exact h x (by simp [hx])

theorem checkReserved_some_assertion (reserved names : List String)
    (e : NewClassError) (h : checkReserved reserved names = some e) :
    e.isAssertion = true := by
  induction names with
  | nil => simp [checkReserved] at h
  | cons k rest ih =>
    by_cases hk : reserved.contains k
    · simp only [checkReserved, hk, if_true, Option.some.injEq] at h
      subst h; rfl
    · simp only [checkReserved, hk, if_false, Bool.false_eq_true] at h
      exact ih h

theorem checkBackends_eq_none_iff (registryKeys backends : List String) :
    checkBackends registryKeys backends = none ↔
      ∀ b ∈ backends, b ∈ registryKeys := by
  induction backends with
  | nil => simp [checkBackends]
  | cons b rest ih =>
    by_cases hb : registryKeys.contains b
    · simp only [checkBackends, hb, if_true]
      rw [ih]
      constructor
      · intro h x hx
        rcases List.mem_cons.mp hx with hx | hx
        · subst hx; simpa using hb
        · exact h x hx
      · intro h x hx
        exact h x (by simp [hx])
    · simp only [checkBackends, hb, if_false, Bool.false_eq_true]
      constructor
      · intro h; cases h
      · intro h
        exfalso
        exact (by simpa using hb : b ∉ registryKeys) (h b (by simp))

theorem checkBackends_some_char (registryKeys backends : List String)
    (e : NewClassError) (h : checkBackends registryKeys backends = some e) :
    ∃ b, e = .backendMissing b ∧ b ∈ backends ∧ b ∉ registryKeys := by
  induction backends with
  | nil => simp [checkBackends] at h
  | cons b rest ih =>
    by_cases hb : registryKeys.contains b
    · simp only [checkBackends, hb, if_true] at h
      obtain ⟨x, hx1, hx2, hx3⟩ := ih h
      exact ⟨x, hx1, by simp [hx2], hx3⟩
    · simp only [checkBackends, hb, if_false, Bool.false_eq_true,
        Option.some.injEq] at h
      exact ⟨b, h.symm, by simp, by simpa using hb⟩

/-- C8: creating a `Metadata` subclass collects exactly the
`MetadataField` attributes, registers them ordered by ascending
`creation_counter`, fails with an assertion error whenever a group name
equals an element name, a group member names a non-element, or an element
name is reserved, and raises the installation error for a backend name
absent from the backend registry. -/
theorem metadata_base_new_spec (groups : List (String × List String))
    (backends registryKeys reserved : List String)
    (attrs : List (String × Option Nat)) :
    ((∀ p ∈ groups, p.1 ∉ (fieldAttrs attrs).map Prod.fst
          ∧ ∀ m ∈ p.2, m ∈ (fieldAttrs attrs).map Prod.fst) →
      (∀ k ∈ (fieldAttrs attrs).map Prod.fst, k ∉ reserved) →
      (∀ b ∈ backends, b ∈ registryKeys) →
      ∃ es, metadata_base_new groups backends registryKeys reserved attrs = .ok es
        ∧ es.Perm (fieldAttrs attrs)
        ∧ es.Pairwise (fun x y => x.2 ≤ y.2))
  ∧ ((¬ (∀ p ∈ groups, p.1 ∉ (fieldAttrs attrs).map Prod.fst
          ∧ ∀ m ∈ p.2, m ∈ (fieldAttrs attrs).map Prod.fst)
      ∨ ¬ (∀ k ∈ (fieldAttrs attrs).map Prod.fst, k ∉ reserved)) →
      ∃ err, metadata_base_new groups backends registryKeys reserved attrs = .error err
        ∧ err.isAssertion = true)
  ∧ ((∀ p ∈ groups, p.1 ∉ (fieldAttrs attrs).map Prod.fst
          ∧ ∀ m ∈ p.2, m ∈ (fieldAttrs attrs).map Prod.fst) →
      (∀ k ∈ (fieldAttrs attrs).map Prod.fst, k ∉ reserved) →
      (∃ b ∈ backends, b ∉ registryKeys) →
      ∃ b, metadata_base_new groups backends registryKeys reserved attrs =
            .error (.backendMissing b)
        ∧ b ∈ backends ∧ b ∉ registryKeys) := by
  have hperm : ((fieldAttrs attrs).mergeSort counterLe).Perm (fieldAttrs attrs) :=
    List.mergeSort_perm _ _
  have hnames : ∀ x : String,
      x ∈ ((fieldAttrs attrs).mergeSort counterLe).map Prod.fst ↔
      x ∈ (fieldAttrs attrs).map Prod.fst :=
    fun x => (hperm.map Prod.fst).mem_iff
  refine ⟨?_, ?_, ?_⟩
  · intro hg hr hb
    have hcg : checkGroups (((fieldAttrs attrs).mergeSort counterLe).map Prod.fst)
        groups = none := by
      rw [checkGroups_eq_none_iff]
      intro p hp
      refine ⟨fun hmem => (hg p hp).1 ((hnames p.1).mp hmem), fun m hm =>
        (hnames m).mpr ((hg p hp).2 m hm)⟩
    have hcr : checkReserved reserved
        (((fieldAttrs attrs).mergeSort counterLe).map Prod.fst) = none := by
      rw [checkReserved_eq_none_iff]
      intro k hk
      exact hr k ((hnames k).mp hk)
    have hcb : checkBackends registryKeys backends = none := by
      rw [checkBackends_eq_none_iff]; exact hb
    refine ⟨(fieldAttrs attrs).mergeSort counterLe, ?_, hperm, ?_⟩
    · simp only [metadata_base_new, hcg, hcr, hcb]
    · have htrans : ∀ a b c : String × Nat, counterLe a b = true →
          counterLe b c = true → counterLe a c = true := by
        intro a b c hab hbc
        simp [counterLe] at *
        omega
      have htotal : ∀ a b : String × Nat,
          (counterLe a b || counterLe b a) = true := by
        intro a b
        simp [counterLe]
        omega
      have hs := List.sorted_mergeSort htrans htotal (fieldAttrs attrs)
      exact hs.imp (by intro a b hab; simpa [counterLe] using hab)
  · intro hbad
    cases hcg : checkGroups (((fieldAttrs attrs).mergeSort counterLe).map Prod.fst)
        groups with
    | some e =>
      refine ⟨e, ?_, checkGroups_some_assertion _ _ _ hcg⟩
      simp only [metadata_base_new, hcg]
    | none =>
      have hgOk : ∀ p ∈ groups, p.1 ∉ (fieldAttrs attrs).map Prod.fst
          ∧ ∀ m ∈ p.2, m ∈ (fieldAttrs attrs).map Prod.fst := by
        intro p hp
        have h := (checkGroups_eq_none_iff _ _).mp hcg p hp
        exact ⟨fun hmem => h.1 ((hnames p.1).mpr hmem), fun m hm =>
          (hnames m).mp (h.2 m hm)⟩
      have hrBad : ¬ (∀ k ∈ (fieldAttrs attrs).map Prod.fst, k ∉ reserved) := by
        rcases hbad with hbad | hbad
        · exact absurd hgOk hbad
        · exact hbad
      cases hcr : checkReserved reserved
          (((fieldAttrs attrs).mergeSort counterLe).map Prod.fst) with
      | some e =>
        refine ⟨e, ?_, checkReserved_some_assertion _ _ _ hcr⟩
        simp only [metadata_base_new, hcg, hcr]
      | none =>
        exfalso
        apply hrBad
        intro k hk
        exact (checkReserved_eq_none_iff _ _).mp hcr k ((hnames k).mpr hk)
  · intro hg hr hbad
    have hcg : checkGroups (((fieldAttrs attrs).mergeSort counterLe).map Prod.fst)
        groups = none := by
      rw [checkGroups_eq_none_iff]
      intro p hp
      refine ⟨fun hmem => (hg p hp).1 ((hnames p.1).mp hmem), fun m hm =>
        (hnames m).mpr ((hg p hp).2 m hm)⟩
    have hcr : checkReserved reserved
        (((fieldAttrs attrs).mergeSort counterLe).map Prod.fst) = none := by
      rw [checkReserved_eq_none_iff]
      intro k hk
      exact hr k ((hnames k).mp hk)
    cases hcb : checkBackends registryKeys backends with
    | none =>
      exfalso
      obtain ⟨b, hb1, hb2⟩ := hbad
      exact hb2 ((checkBackends_eq_none_iff _ _).mp hcb b hb1)
    | some e =>
      obtain ⟨b, he, hb1, hb2⟩ := checkBackends_some_char _ _ _ hcb
      refine ⟨b, ?_, hb1, hb2⟩
      subst he
      simp only [metadata_base_new, hcg, hcr, hcb]

/-- Concrete run of C8: two fields declared out of counter order are
registered sorted by `creation_counter`, and a non-field attribute is not
collected. -/
theorem metadata_base_new_spec_witness :
    ∃ es, metadata_base_new [("g", ["title"])] ["path"] ["path"] ["id"]
        [("title", some 2), ("desc", some 1), ("other", none)] = .ok es
      ∧ es.Perm (fieldAttrs [("title", some 2), ("desc", some 1), ("other", none)])
      ∧ es.Pairwise (fun x y => x.2 ≤ y.2) :=
  (metadata_base_new_spec [("g", ["title"])] ["path"] ["path"] ["id"]
      [("title", some 2), ("desc", some 1), ("other", none)]).1
    (by decide) (by decide) (by decide)

/-! ## C4 and C10: `_handle_redirects_callback` -/

theorem mem_redirectGetOrCreate (redirects : List Redirect) (r : Redirect) :
    r ∈ redirectGetOrCreate redirects r := by
  unfold redirectGetOrCreate
  by_cases h : r ∈ redirects
  · simp [h]
  · simp [h]

/-- C4: for a pre-save of a tracked instance that already has a primary
key, with a stored version of the object in the database, a `Redirect`
from the stored object's current URL to the instance's new URL (current
site, `all_subdomains=True`) is get-or-created exactly when the two URLs
differ, and nothing is created when they are equal. -/
theorem handle_redirects_creates_on_change (db : List StoredObj)
    (redirects : List Redirect) (currentSite : String)
    (inst : RedirectInstance) (n : Nat) (stored : StoredObj)
    (before after : String)
    (hpk : inst.pk = some n) (hn : n ≠ 0)
    (hafter : inst.getUrl = .ok after)
    (hstored : (db.filter (fun o => o.id == n)).head? = some stored)
    (hbefore : stored.getUrl = .ok before) :
    (before ≠ after →
      handle_redirects_callback db redirects currentSite inst =
        (redirectGetOrCreate redirects
          { old_path := before, new_path := after,
            site := currentSite, all_subdomains := true }, false)
      ∧ { old_path := before, new_path := after, site := currentSite,
          all_subdomains := true } ∈
          (handle_redirects_callback db redirects currentSite inst).1)
  ∧ (before = after →
      handle_redirects_callback db redirects currentSite inst =
        (redirects, false)) := by
  constructor
  · intro hne
    have hmain : handle_redirects_callback db redirects currentSite inst =
        (redirectGetOrCreate redirects
          { old_path := before, new_path := after,
            site := currentSite, all_subdomains := true }, false) := by
      simp [handle_redirects_callback, redirectsBody, hpk, hn, hafter,
        hstored, hbefore, hne]
    refine ⟨hmain, ?_⟩
    rw [hmain]
    exact mem_redirectGetOrCreate redirects _
  · intro heq
    simp [handle_redirects_callback, redirectsBody, hpk, hn, hafter,
      hstored, hbefore, heq]

/-- Concrete run of C4: a changed URL creates the redirect. -/
theorem handle_redirects_creates_on_change_witness :
    handle_redirects_callback [{ id := 1, getUrl := .ok "/old" }] []
        "example.com" { pk := some 1, getUrl := .ok "/new" } =
      (redirectGetOrCreate []
        { old_path := "/old", new_path := "/new",
          site := "example.com", all_subdomains := true }, false)
  ∧ { old_path := "/old", new_path := "/new", site := "example.com",
      all_subdomains := true } ∈
      (handle_redirects_callback [{ id := 1, getUrl := .ok "/old" }] []
        "example.com" { pk := some 1, getUrl := .ok "/new" }).1 :=
  (handle_redirects_creates_on_change [{ id := 1, getUrl := .ok "/old" }]
    [] "example.com" { pk := some 1, getUrl := .ok "/new" } 1
    { id := 1, getUrl := .ok "/old" } "/old" "/new" rfl (by decide) rfl rfl
    rfl).1 (by decide)

/-- C10: `_handle_redirects_callback` never raises to its caller — it is
a total function into plain redirect lists: an instance without a truthy
primary key returns immediately with nothing created, and any exception
from the URL computations or the creation body is caught and logged,
leaving the redirects unchanged. -/
theorem handle_redirects_never_raises (db : List StoredObj)
    (redirects : List Redirect) (currentSite : String)
    (inst : RedirectInstance) :
    (pkTruthy inst.pk = false →
      handle_redirects_callback db redirects currentSite inst =
        (redirects, false))
  ∧ (∀ n e, inst.pk = some n → n ≠ 0 →
      redirectsBody db redirects currentSite inst n = .error e →
      handle_redirects_callback db redirects currentSite inst =
        (redirects, true))
  ∧ (∀ e n, inst.getUrl = .error e → inst.pk = some n → n ≠ 0 →
      handle_redirects_callback db redirects currentSite inst =
        (redirects, true)) := by
  refine ⟨?_, ?_, ?_⟩
  · intro hpk
    rcases h : inst.pk with _ | n
    · simp [handle_redirects_callback, h]
    · rw [h] at hpk
      simp [pkTruthy] at hpk
      simp [handle_redirects_callback, h, hpk]
  · intro n e hpk hn hbody
    simp [handle_redirects_callback, hpk, hn, hbody]
  · intro e n hurl hpk hn
    have hbody : redirectsBody db redirects currentSite inst n = .error e := by
      simp [redirectsBody, hurl]
    simp [handle_redirects_callback, hpk, hn, hbody]

/-- Concrete run of C10: an unsaved instance creates nothing, and a
raising `get_absolute_url` is caught and logged. -/
theorem handle_redirects_never_raises_witness :
    handle_redirects_callback [] [] "s" { pk := none, getUrl := .ok "/a" } =
      ([], false)
  ∧ handle_redirects_callback [] [] "s"
      { pk := some 1, getUrl := .error "boom" } = ([], true) :=
  ⟨(handle_redirects_never_raises [] [] "s"
      { pk := none, getUrl := .ok "/a" }).1 rfl,
   (handle_redirects_never_raises [] [] "s"
      { pk := some 1, getUrl := .error "boom" }).2.2 "boom" 1 rfl rfl
     (by decide)⟩

/-! ## C6: `_delete_callback` -/

/-- C6: the pre-delete callback deletes exactly the rows of the tracked
instance from the `model_class` table — a row survives iff it does not
carry the instance's content type and object id — and every other table
is untouched. -/
theorem delete_callback_exact (tables : List (String × List MDRow))
    (modelClass : String) (inst : TrackedInstance) :
    (∀ t ∈ tables, t.1 ≠ modelClass →
      t ∈ delete_callback tables modelClass inst)
  ∧ (∀ t ∈ tables, t.1 = modelClass →
      (t.1, t.2.filter (fun r => ¬ (r.ct == inst.ct && r.oid == inst.pk)))
        ∈ delete_callback tables modelClass inst
      ∧ ∀ r, r ∈ t.2.filter (fun r => ¬ (r.ct == inst.ct && r.oid == inst.pk))
          ↔ (r ∈ t.2 ∧ ¬ (r.ct = inst.ct ∧ r.oid = inst.pk))) := by
  constructor
  · intro t ht hne
    have : (fun t : String × List MDRow =>
        if t.1 == modelClass then
          (t.1, t.2.filter (fun r => ¬ (r.ct == inst.ct && r.oid == inst.pk)))
        else t) t = t := by
      simp [hne]
    rw [← this]
    exact List.mem_map_of_mem _ ht
  · intro t ht heq
    constructor
    · have : (fun t : String × List MDRow =>
          if t.1 == modelClass then
            (t.1, t.2.filter (fun r => ¬ (r.ct == inst.ct && r.oid == inst.pk)))
          else t) t =
          (t.1, t.2.filter (fun r => ¬ (r.ct == inst.ct && r.oid == inst.pk))) := by
        simp [heq]
      rw [← this]
      exact List.mem_map_of_mem _ ht
    · intro r
      simp [List.mem_filter]
      tauto

/-- Concrete run of C6: only the matching row of the matching table is
removed. -/
theorem delete_callback_exact_witness :
    (⟨2, 9, some 9, "/o", none⟩ : MDRow) ∈
      (("md", [(⟨1, 1, some 5, "/p", none⟩ : MDRow),
          ⟨2, 9, some 9, "/o", none⟩]) : String × List MDRow).2.filter
        (fun r => ¬ (r.ct == (1 : Nat) && r.oid == some 5)) :=
  ((delete_callback_exact
      [("md", [(⟨1, 1, some 5, "/p", none⟩ : MDRow), ⟨2, 9, some 9, "/o", none⟩])]
      "md" ⟨false, 1, some 5, none⟩).2
    ("md", [(⟨1, 1, some 5, "/p", none⟩ : MDRow), ⟨2, 9, some 9, "/o", none⟩])
    (by decide) rfl).2 (⟨2, 9, some 9, "/o", none⟩ : MDRow) |>.mpr
      ⟨by decide, by decide⟩

/-! ## C7: `get_linked_metadata` -/

/-- C7: `get_linked_metadata` never propagates a missing-row lookup
failure — `DoesNotExist` is always caught and a fresh unsaved fallback
object used — and (whenever neither lookup hits multiple rows) it returns
a `FormattedMetadata` over the assembled instance list, with the fresh
instance-level (resp. model-level) object standing in exactly when no
matching row exists. -/
theorem get_linked_metadata_catches_missing (instRows : Option (List MDRow))
    (modelRows : Option (List ModelMDRow)) (ct : Nat) (pk : Option Nat) :
    (get_linked_metadata instRows modelRows ct pk ≠ .error .doesNotExist)
  ∧ (∀ irows, instRows = some irows →
      irows.filter (fun r => r.ct == ct && r.oid == pk) = [] →
      instLookup instRows ct pk = .ok [LinkedMD.freshInstanceRow ct pk])
  ∧ (∀ mrows, modelRows = some mrows →
      mrows.filter (fun r => r.ct == ct) = [] →
      modelLookup modelRows ct = .ok [LinkedMD.freshModelRow ct])
  ∧ (∀ iPart mPart, instLookup instRows ct pk = .ok iPart →
      modelLookup modelRows ct = .ok mPart →
      get_linked_metadata instRows modelRows ct pk =
        .ok { instances := iPart ++ mPart, path := "" }) := by
  refine ⟨?_, ?_, ?_, ?_⟩
  · unfold get_linked_metadata
    have hinst : ∀ e, instLookup instRows ct pk = .error e →
        e = .multipleObjectsReturned := by
      intro e he
      unfold instLookup at he
      rcases instRows with _ | irows
      · cases he
      · unfold djangoGet at he
        rcases hfil : irows.filter (fun r => r.ct == ct && r.oid == pk) with
          _ | ⟨a, _ | ⟨b, t⟩⟩ <;> (simp [hfil] at he; try exact he.symm)
    have hmodel : ∀ e, modelLookup modelRows ct = .error e →
        e = .multipleObjectsReturned := by
      intro e he
      unfold modelLookup at he
      rcases modelRows with _ | mrows
      · cases he
      · unfold djangoGet at he
        rcases hfil : mrows.filter (fun r => r.ct == ct) with
          _ | ⟨a, _ | ⟨b, t⟩⟩ <;> (simp [hfil] at he; try exact he.symm)
    cases hi : instLookup instRows ct pk with
    | error e =>
      have := hinst e hi
      subst this
      simp
    | ok iPart =>
      cases hm : modelLookup modelRows ct with
      | error e =>
        have := hmodel e hm
        subst this
        simp
      | ok mPart => simp
  · intro irows hrows hfil
    simp [instLookup, hrows, djangoGet, hfil]
  · intro mrows hrows hfil
    simp [modelLookup, hrows, djangoGet, hfil]
  · intro iPart mPart hi hm
    simp [get_linked_metadata, hi, hm]

/-- Concrete run of C7: with empty tables both lookups miss, both fresh
fallbacks are used, and a `FormattedMetadata` is returned. -/
theorem get_linked_metadata_catches_missing_witness :
    get_linked_metadata (some []) (some []) 3 (some 7) =
      .ok { instances := [LinkedMD.freshInstanceRow 3 (some 7)] ++
              [LinkedMD.freshModelRow 3], path := "" } :=
  (get_linked_metadata_catches_missing (some []) (some []) 3 (some 7)).2.2.2
    [LinkedMD.freshInstanceRow 3 (some 7)] [LinkedMD.freshModelRow 3]
    ((get_linked_metadata_catches_missing (some []) (some []) 3
        (some 7)).2.1 [] rfl rfl)
    ((get_linked_metadata_catches_missing (some []) (some []) 3
        (some 7)).2.2.1 [] rfl rfl)

/-! ## C5: `create_metadata_instance` -/

theorem saveRow_map_rid (db : List MDRow) (r : MDRow) :
    (saveRow db r).map (fun x => x.rid) = db.map (fun x => x.rid) := by
  unfold saveRow
  induction db with
  | nil => rfl
  | cons x xs ih =>
    by_cases h : x.rid == r.rid
    · have hr : x.rid = r.rid := by simpa using h
      simp only [List.map_cons, h, if_true, ih]
      rw [← hr]
    · simp only [List.map_cons, h, Bool.false_eq_true, if_false, ih]

theorem mem_saveRow_of_ne (db : List MDRow) (r x : MDRow) (hx : x ∈ db)
    (hne : x.rid ≠ r.rid) : x ∈ saveRow db r := by
  unfold saveRow
  exact List.mem_map.mpr ⟨x, hx, by simp [hne]⟩

theorem mem_saveRow_self (db : List MDRow) (r x : MDRow) (hx : x ∈ db)
    (heq : x.rid = r.rid) : r ∈ saveRow db r := by
  unfold saveRow
  exact List.mem_map.mpr ⟨x, hx, by simp [heq]⟩

theorem saveRow_map_key (db : List MDRow) (md upd : MDRow)
    (hrid : upd.rid = md.rid) (hct : upd.ct = md.ct) (hoid : upd.oid = md.oid)
    (hmd : md ∈ db) (hnd : (db.map (fun x => x.rid)).Nodup) :
    (saveRow db upd).map (fun x => (x.rid, x.ct, x.oid)) =
      db.map (fun x => (x.rid, x.ct, x.oid)) := by
  unfold saveRow
  rw [List.map_map]
  apply List.map_congr_left
  intro x hx
  by_cases h : x.rid == upd.rid
  · have hxmd : x = md :=
      List.inj_on_of_nodup_map hnd hx hmd (by simpa [hrid] using h)
    subst hxmd
    simp [h, hrid, hct, hoid]
  · have h' : x.rid ≠ upd.rid := by simpa using h
    simp [h']

theorem rid_map_of_key_map (db1 db2 : List MDRow)
    (h : db1.map (fun x => (x.rid, x.ct, x.oid)) =
      db2.map (fun x => (x.rid, x.ct, x.oid))) :
    db1.map (fun x => x.rid) = db2.map (fun x => x.rid) := by
  have h2 := congrArg (List.map (fun t : Nat × Nat × Option Nat => t.1)) h
  simpa [List.map_map, Function.comp] using h2

/-- The invariants of the path loop of `create_metadata_instance`, under
the hypothesis that every foreign row in the snapshot still has its
content object: the loop completes (no early return), the rows' keys
(row id, content type, object id) are preserved in place, rows untouched
by the loop survive, every foreign snapshot row
has been re-pointed at its own object's URL, and the remembered row (when
any) is a row of this instance at the path. -/
theorem pathLoop_spec (inst : TrackedInstance) (path : String) :
    ∀ (snapshot db : List MDRow) (found : Option MDRow),
    (db.map (fun x => x.rid)).Nodup →
    (snapshot.map (fun x => x.rid)).Nodup →
    (∀ md ∈ snapshot, md ∈ db) →
    (∀ md ∈ snapshot, md.path = path) →
    (∀ md ∈ snapshot,
      (md.ct ≠ inst.ct ∨ md.oid ≠ inst.pk) → md.contentObj ≠ none) →
    (∀ r, found = some r →
      r ∈ db ∧ r.ct = inst.ct ∧ r.oid = inst.pk ∧ r.path = path) →
    ∃ db' found',
      pathLoop inst db snapshot found = .done db' found'
      ∧ db'.map (fun x => (x.rid, x.ct, x.oid)) =
          db.map (fun x => (x.rid, x.ct, x.oid))
      ∧ (∀ x ∈ db,
          (∀ md ∈ snapshot,
            (md.ct ≠ inst.ct ∨ md.oid ≠ inst.pk) → x.rid ≠ md.rid) →
          x ∈ db')
      ∧ (∀ md ∈ snapshot, ∀ obj,
          (md.ct ≠ inst.ct ∨ md.oid ≠ inst.pk) → md.contentObj = some obj →
          ∃ r' ∈ db', r'.rid = md.rid ∧ r'.path = obj.url
            ∧ r'.ct = md.ct ∧ r'.oid = md.oid)
      ∧ (∀ r, found' = some r →
          r ∈ db' ∧ r.ct = inst.ct ∧ r.oid = inst.pk ∧ r.path = path) := by
  intro snapshot
  induction snapshot with
  | nil =>
    intro db found hdnd hsnd hsub hpath hobj hfound
    exact ⟨db, found, rfl, rfl, fun x hx _ => hx, by simp, hfound⟩
  | cons md rest ih =>
    intro db found hdnd hsnd hsub hpath hobj hfound
    have hmdrid : md.rid ∉ rest.map (fun x => x.rid) :=
      (List.nodup_cons.mp (by simpa using hsnd)).1
    have hsnd' : (rest.map (fun x => x.rid)).Nodup :=
      (List.nodup_cons.mp (by simpa using hsnd)).2
    by_cases hforeign : md.ct ≠ inst.ct ∨ md.oid ≠ inst.pk
    · have hobjne := hobj md (by simp) hforeign
      cases hco : md.contentObj with
      | none => exact absurd hco hobjne
      | some obj =>
        have hub : ({ md with path := obj.url } : MDRow).rid = md.rid := rfl
        have hdnd2 : ((saveRow db { md with path := obj.url }).map
            (fun x => x.rid)).Nodup := by
          rw [saveRow_map_rid]; exact hdnd
        have hsub2 : ∀ x ∈ rest, x ∈ saveRow db { md with path := obj.url } := by
          intro x hx
          apply mem_saveRow_of_ne _ _ _ (hsub x (by simp [hx]))
          rw [hub]
          intro hcontra
          exact hmdrid (hcontra ▸ List.mem_map_of_mem (fun x => x.rid) hx)
        have hfound2 : ∀ r, found = some r →
            r ∈ saveRow db { md with path := obj.url } ∧ r.ct = inst.ct
              ∧ r.oid = inst.pk ∧ r.path = path := by
          intro r hr
          obtain ⟨hrdb, hrct, hroid, hrpath⟩ := hfound r hr
          refine ⟨?_, hrct, hroid, hrpath⟩
          apply mem_saveRow_of_ne _ _ _ hrdb
          rw [hub]
          intro hcontra
          have : r = md := List.inj_on_of_nodup_map hdnd hrdb
            (hsub md (by simp)) hcontra
          subst this
          rcases hforeign with h | h
          · exact h hrct
          · exact h hroid
        obtain ⟨db', found', heq, hP1, hP2, hP3, hfound'⟩ :=
          ih (saveRow db { md with path := obj.url }) found hdnd2 hsnd' hsub2
            (fun x hx => hpath x (by simp [hx]))
            (fun x hx h => hobj x (by simp [hx]) h) hfound2
        refine ⟨db', found', ?_, ?_, ?_, ?_, hfound'⟩
        · simpa [pathLoop, hforeign, hco] using heq
        · rw [hP1]
          exact saveRow_map_key db md _ rfl rfl rfl (hsub md (by simp)) hdnd
        · intro x hx hxcond
          apply hP2
          · apply mem_saveRow_of_ne _ _ _ hx
            rw [hub]
            exact hxcond md (by simp) hforeign
          · intro md' hmd' hmd'f
            exact hxcond md' (by simp [hmd']) hmd'f
        · intro md' hmd' obj' hf' hco'
          rcases List.mem_cons.mp hmd' with hmd' | hmd'
          · subst hmd'
            rw [hco] at hco'
            have hobj' : obj = obj' := by injection hco'
            subst hobj'
            refine ⟨{ md' with path := obj.url }, ?_, rfl, rfl, rfl, rfl⟩
            apply hP2
            · exact mem_saveRow_self _ _ md' (hsub md' (by simp)) rfl
            · intro md'' hmd'' _
              rw [hub]
              intro hcontra
              exact hmdrid (hcontra ▸ List.mem_map_of_mem (fun x => x.rid) hmd'')
          · exact hP3 md' hmd' obj' hf' hco'
    · have hown : md.ct = inst.ct ∧ md.oid = inst.pk := by
        push_neg at hforeign
        exact hforeign
      have hfound2 : ∀ r, (some md : Option MDRow) = some r →
          r ∈ db ∧ r.ct = inst.ct ∧ r.oid = inst.pk ∧ r.path = path := by
        intro r hr
        have : md = r := by injection hr
        subst this
        exact ⟨hsub md (by simp), hown.1, hown.2, hpath md (by simp)⟩
      obtain ⟨db', found', heq, hP1, hP2, hP3, hfound'⟩ :=
        ih db (some md) hdnd hsnd' (fun x hx => hsub x (by simp [hx]))
          (fun x hx => hpath x (by simp [hx]))
          (fun x hx h => hobj x (by simp [hx]) h) hfound2
      refine ⟨db', found', ?_, hP1, ?_, ?_, hfound'⟩
      · simpa [pathLoop, hforeign] using heq
      · intro x hx hxcond
        exact hP2 x hx (fun md' hmd' hmd'f => hxcond md' (by simp [hmd']) hmd'f)
      · intro md' hmd' obj' hf' hco'
        rcases List.mem_cons.mp hmd' with hmd' | hmd'
        · subst hmd'
          exact absurd hf' hforeign
        · exact hP3 md' hmd' obj' hf' hco'

/-- C5 (amended): after `create_metadata_instance` for an unhandled
instance with a URL, provided every pre-existing row at that path owned
by a different object still has its content object and at most one row is
already linked to the instance's content type and object id, the call
returns normally, some metadata row is linked to the instance's content
type and object id with `_path` equal to the instance's URL, and every
pre-existing foreign row at that path has had its `_path` re-pointed at
its own object's current URL.  (A dangling foreign row at the path
triggers the early `return` with no row created or updated for the
instance, though re-pointings saved before it persist; duplicate linked
rows make `get_or_create` raise `MultipleObjectsReturned`, which
propagates.) -/
theorem create_metadata_instance_spec (db : List MDRow)
    (inst : TrackedInstance) (path : String)
    (hnd : (db.map (fun x => x.rid)).Nodup)
    (hhandled : inst.handled = false)
    (hurl : inst.url = some path)
    (hdangling : ∀ md ∈ db, md.path = path →
      (md.ct ≠ inst.ct ∨ md.oid ≠ inst.pk) → md.contentObj ≠ none)
    (hunique :
      (db.filter (fun r => r.ct == inst.ct && r.oid == inst.pk)).length ≤ 1) :
    ∃ dbr, create_metadata_instance db inst = .done dbr
      ∧ (∃ r ∈ dbr, r.ct = inst.ct ∧ r.oid = inst.pk ∧ r.path = path)
      ∧ (∀ md ∈ db, md.path = path → (md.ct ≠ inst.ct ∨ md.oid ≠ inst.pk) →
          ∀ obj, md.contentObj = some obj →
          ∃ r' ∈ dbr, r'.rid = md.rid ∧ r'.path = obj.url) := by
  have hsnd : ((get_instances db path).map (fun x => x.rid)).Nodup :=
    hnd.sublist ((List.filter_sublist db).map _)
  have hsub : ∀ md ∈ get_instances db path, md ∈ db := by
    intro md hmd
    exact (List.mem_filter.mp hmd).1
  have hpathm : ∀ md ∈ get_instances db path, md.path = path := by
    intro md hmd
    have := (List.mem_filter.mp hmd).2
    simpa using this
  have hco : ∀ md ∈ get_instances db path,
      (md.ct ≠ inst.ct ∨ md.oid ≠ inst.pk) → md.contentObj ≠ none := by
    intro md hmd hf
    exact hdangling md (hsub md hmd) (hpathm md hmd) hf
  obtain ⟨db', found', heq, hP1, hP2, hP3, hfound'⟩ :=
    pathLoop_spec inst path (get_instances db path) db none hnd hsnd hsub
      hpathm hco (by intro r hr; cases hr)
  have hmemsnap : ∀ md ∈ db, md.path = path → md ∈ get_instances db path := by
    intro md hmd hp
    exact List.mem_filter.mpr ⟨hmd, by simp [hp]⟩
  cases found' with
  | some r =>
    have hres : create_metadata_instance db inst = .done db' := by
      simp [create_metadata_instance, hhandled, hurl, heq]
    obtain ⟨hrdb, hct, hoid, hrpath⟩ := hfound' r rfl
    refine ⟨db', hres, ⟨r, hrdb, hct, hoid, hrpath⟩, ?_⟩
    intro md hmd hpathmd hf obj hobj
    obtain ⟨r', hr'db, hrid, hr'path, _, _⟩ :=
      hP3 md (hmemsnap md hmd hpathmd) obj hf hobj
    exact ⟨r', hr'db, hrid, hr'path⟩
  | none =>
    have hnd' : (db'.map (fun x => x.rid)).Nodup := by
      rw [rid_map_of_key_map db' db hP1]
      exact hnd
    have hcount :
        (db'.filter (fun r => r.ct == inst.ct && r.oid == inst.pk)).length ≤ 1 := by
      have h2 := congrArg (List.countP
        (fun t : Nat × Nat × Option Nat =>
          t.2.1 == inst.ct && t.2.2 == inst.pk)) hP1
      rw [List.countP_map, List.countP_map] at h2
      have h3 : db'.countP (fun r => r.ct == inst.ct && r.oid == inst.pk) =
          db.countP (fun r => r.ct == inst.ct && r.oid == inst.pk) := by
        simpa [Function.comp] using h2
      rw [← List.countP_eq_length_filter, h3, List.countP_eq_length_filter]
      exact hunique
    cases hfil : db'.filter (fun r => r.ct == inst.ct && r.oid == inst.pk) with
    | nil =>
      have hres : create_metadata_instance db inst =
          .done (db' ++ [{ rid := freshRid db', ct := inst.ct, oid := inst.pk,
                           path := path, contentObj := some { url := path } }]) := by
        simp [create_metadata_instance, hhandled, hurl, heq, hfil]
      refine ⟨_, hres, ?_, ?_⟩
      · refine ⟨(⟨freshRid db', inst.ct, inst.pk, path, some ⟨path⟩⟩ : MDRow),
          ?_, rfl, rfl, rfl⟩
        exact List.mem_append_right _ (by simp)
      · intro md hmd hpathmd hf obj hobj
        obtain ⟨r', hr'db, hrid, hr'path, _, _⟩ :=
          hP3 md (hmemsnap md hmd hpathmd) obj hf hobj
        exact ⟨r', List.mem_append_left _ hr'db, hrid, hr'path⟩
    | cons r0 tail =>
      cases tail with
      | cons r1 tail' =>
        exfalso
        rw [hfil] at hcount
        simp at hcount
      | nil =>
        have hres : create_metadata_instance db inst =
            .done (saveRow db' { r0 with path := path }) := by
          simp [create_metadata_instance, hhandled, hurl, heq, hfil]
        have hr0fil : r0 ∈
            db'.filter (fun r => r.ct == inst.ct && r.oid == inst.pk) := by
          rw [hfil]
          simp
        have hr0mem : r0 ∈ db' := (List.mem_filter.mp hr0fil).1
        have hr0p : r0.ct = inst.ct ∧ r0.oid = inst.pk := by
          have := (List.mem_filter.mp hr0fil).2
          simpa using this
        refine ⟨_, hres, ?_, ?_⟩
        · exact ⟨{ r0 with path := path },
            mem_saveRow_self db' _ r0 hr0mem rfl, hr0p.1, hr0p.2, rfl⟩
        · intro md hmd hpathmd hf obj hobj
          obtain ⟨r', hr'db, hrid, hr'path, hr'ct, hr'oid⟩ :=
            hP3 md (hmemsnap md hmd hpathmd) obj hf hobj
          refine ⟨r', ?_, hrid, hr'path⟩
          apply mem_saveRow_of_ne db' _ r' hr'db
          intro hcontra
          have hr'r0 : r' = r0 :=
            List.inj_on_of_nodup_map hnd' hr'db hr0mem hcontra
          rcases hf with h | h
          · exact h (by rw [← hr'ct, hr'r0, hr0p.1])
          · exact h (by rw [← hr'oid, hr'r0, hr0p.2])

/-- C5 counterexample: a pre-existing row at the path owned by a
different object whose content object is gone triggers the early
`return`, so no metadata row is created or updated for the saved
instance, refuting the unconditional claim. -/
theorem create_metadata_instance_dangling_counterexample :
    create_metadata_instance [(⟨0, 1, some 1, "/p", none⟩ : MDRow)]
        ⟨false, 2, some 5, some "/p"⟩ =
      .done [(⟨0, 1, some 1, "/p", none⟩ : MDRow)]
  ∧ ¬ ∃ r ∈ (create_metadata_instance [(⟨0, 1, some 1, "/p", none⟩ : MDRow)]
        ⟨false, 2, some 5, some "/p"⟩).table,
      r.ct = 2 ∧ r.oid = some 5 ∧ r.path = "/p" := by
  decide

/-- Concrete run of C5: a foreign row at the path is re-pointed at its
own object's URL and a fresh row is created for the saved instance. -/
theorem create_metadata_instance_spec_witness :
    ∃ dbr, create_metadata_instance
        [(⟨1, 3, some 4, "/p", some ⟨"/other"⟩⟩ : MDRow)]
        ⟨false, 2, some 5, some "/p"⟩ = .done dbr
      ∧ (∃ r ∈ dbr, r.ct = 2 ∧ r.oid = some 5 ∧ r.path = "/p")
      ∧ (∀ md ∈ [(⟨1, 3, some 4, "/p", some ⟨"/other"⟩⟩ : MDRow)],
          md.path = "/p" → (md.ct ≠ 2 ∨ md.oid ≠ some 5) →
          ∀ obj, md.contentObj = some obj →
          ∃ r' ∈ dbr, r'.rid = md.rid ∧ r'.path = obj.url) :=
  create_metadata_instance_spec
    [(⟨1, 3, some 4, "/p", some ⟨"/other"⟩⟩ : MDRow)]
    ⟨false, 2, some 5, some "/p"⟩ "/p" (by decide) rfl rfl (by decide)
    (by decide)

end DjangoSeo
